import Mathlib

/-!
# Verification of the `memory` pool manager (runningwild/memory)

Shallow embedding of `src/manager.go`, a manually managed memory block pool.

Modelling conventions:
* A block's contents are a `List Nat` of byte values; a block's identity
  (the Go code keys its `used` map by the address `&block[0]`, and blocks are
  never deallocated, so addresses are stable and unique) is modelled by the
  pair `(sizeClassIndex, indexWithinClass)`, as an opaque stable handle.
* The caller-visible slice returned by `GetBlock` is a `ByteView` carrying the
  identity of its backing block together with the bytes of the returned slice.
* Go panics (index out of range on `m.blocks[s]`, `&b[0]` on an empty slice,
  and the explicit `panic("Tried to free an unused block")`) are modelled as
  `Except.error` results; on a panic the deferred `Unlock` runs and no state
  mutation has happened, so an erroring operation leaves the manager unchanged.
* All three methods hold the manager's mutex for their whole body (when they
  take it at all), so concurrent executions are serialized: the model is the
  sequential interleaving of whole operations.  Which mutex operations each
  method body performs is recorded separately (`getBlockLockEvents` etc.).
* Go `int` arithmetic in the size-class search loop is modelled twice: once
  over `Nat` (`findClassAux`, exact for all requests up to `2^62`, the range
  where the Go loop performs no wrapping), and once over 64-bit two's
  complement integers (`findClassGoAux`) to settle behaviour at huge requests
  where the Go loop's capacity variable overflows.
-/

/-- `const smallestBlockSize = 1024` from the source. -/
def smallestBlockSize : Nat := 1024

/-- `NewManager` makes `m.blocks` with 21 size classes. -/
def numSizeClasses : Nat := 21

/-- Physical size of blocks in class `s`: `smallestBlockSize * 2^s`
(the source comment: `blocks[size] = a slice of blocks of length 2^(10+size)`). -/
def classSize (s : Nat) : Nat := smallestBlockSize * 2 ^ s

/-- A block is a contiguous byte buffer, modelled as its list of byte values. -/
abbrev Block := List Nat

/-- The state of a `Manager`: the class table `blocks` and the checked-out set
`used` (Go: `map[*byte]bool`, keyed by block identity). -/
structure Manager where
  blocks : List (List Block)
  used : Finset (Nat × Nat)
deriving DecidableEq

/-- The caller-visible slice returned by `GetBlock`: the identity
`(sIdx, bIdx)` of its backing block and the bytes of the slice. -/
structure ByteView where
  sIdx : Nat
  bIdx : Nat
  data : List Nat
deriving DecidableEq

/-- The two panic sites of the source, modelled as error values:
an out-of-range index (`m.blocks[s]` with `s ≥ 21`, or `&b[0]` on an empty
slice) and `panic("Tried to free an unused block")`. -/
inductive MemErr where
  | indexOutOfRange
  | freeUnused
deriving DecidableEq

instance {ε α : Type} [DecidableEq ε] [DecidableEq α] : DecidableEq (Except ε α)
  | Except.ok a, Except.ok b =>
    if h : a = b then Decidable.isTrue (by rw [h])
    else Decidable.isFalse (fun hc => h (by injection hc))
  | Except.ok _, Except.error _ => Decidable.isFalse (fun hc => Except.noConfusion hc)
  | Except.error _, Except.ok _ => Decidable.isFalse (fun hc => Except.noConfusion hc)
  | Except.error e, Except.error f =>
    if h : e = f then Decidable.isTrue (by rw [h])
    else Decidable.isFalse (fun hc => h (by injection hc))

/-- `func NewManager() *Manager`: 21 empty size classes, empty used set. -/
def NewManager : Manager :=
  { blocks := List.replicate numSizeClasses [], used := ∅ }

/-- The size-class search loop of `GetBlock` over `Nat`:
`c := smallestBlockSize; s := 0; for c < n { c *= 2; s++ }`.
The `fuel` argument makes the recursion structural; `fuel = n` is always
sufficient (`findClassAux_spec`), so `findClass` computes exactly the loop's
result.  Over `Nat` the multiplication never overflows; this matches the Go
`int` loop for all `n ≤ 2^62` (`findClassGoAux_agrees`). -/
def findClassAux : Nat → Nat → Nat → Nat → Nat × Nat
  | 0, _, c, s => (c, s)
  | fuel + 1, n, c, s => if c < n then findClassAux fuel n (c * 2) (s + 1) else (c, s)

/-- Result `(c, s)` of the size-class search of `GetBlock` for request `n`. -/
def findClass (n : Nat) : Nat × Nat :=
  findClassAux n n smallestBlockSize 0

/-- The scan `for i := range m.blocks[s] { if !m.used[&m.blocks[s][i][0]] ... }`:
index of the first block of class `s` not in the checked-out set. -/
def freeIndex (used : Finset (Nat × Nat)) (s : Nat) (cls : List Block) : Option Nat :=
  (List.range cls.length).find? (fun i => !(decide ((s, i) ∈ used)))

/-- `func (m *Manager) GetBlock(n int) []byte`.

Reuse path: mark the block used, zero its entire backing storage, and return
`m.blocks[s][i]` — the FULL block, not a length-`n` slice of it.
Allocation path: `make([]byte, c)`, append, mark used, return `new_block[0:n]`. -/
def Manager.GetBlock (m : Manager) (n : Nat) : Except MemErr (ByteView × Manager) :=
  let c := (findClass n).1
  let s := (findClass n).2
  match m.blocks.get? s with
  | none => Except.error MemErr.indexOutOfRange
  | some cls =>
    match freeIndex m.used s cls with
    | some i =>
      let blk := cls.getD i []
      let zeroed : Block := List.replicate blk.length 0
      Except.ok (⟨s, i, zeroed⟩,
        { blocks := m.blocks.set s (cls.set i zeroed),
          used := insert (s, i) m.used })
    | none =>
      let newBlock : Block := List.replicate c 0
      Except.ok (⟨s, cls.length, newBlock.take n⟩,
        { blocks := m.blocks.set s (cls ++ [newBlock]),
          used := insert (s, cls.length) m.used })

/-- `func (m *Manager) FreeBlock(b []byte)`.

Evaluating `&b[0]` on a zero-length slice panics with an index-out-of-range
before the used-set lookup; otherwise, a block identity absent from `used`
hits `panic("Tried to free an unused block")`, and a present one is deleted. -/
def Manager.FreeBlock (m : Manager) (b : ByteView) : Except MemErr Manager :=
  if b.data.length = 0 then Except.error MemErr.indexOutOfRange
  else if (b.sIdx, b.bIdx) ∈ m.used then
    Except.ok { m with used := m.used.erase (b.sIdx, b.bIdx) }
  else Except.error MemErr.freeUnused

/-- Number of blocks of class `s` (with blocks `cls`) counted as in use by
`TotalAllocations`' inner loop. -/
def usedCount (used : Finset (Nat × Nat)) (s : Nat) (cls : List Block) : Nat :=
  ((List.range cls.length).filter (fun i => decide ((s, i) ∈ used))).length

/-- The per-class loop of `TotalAllocations`, accumulating the report string
and the `total_used` / `total_allocated` byte counters, with `c` doubling from
class to class. -/
def totalAllocationsAux (used : Finset (Nat × Nat)) :
    List (List Block) → Nat → Nat → String × Nat × Nat
  | [], _, _ => ("", 0, 0)
  | cls :: rest, s, c =>
    let u := usedCount used s cls
    let line :=
      if 0 < u then
        toString c ++ " bytes: " ++ toString u ++ "/" ++ toString cls.length ++
          " blocks in use.\n"
      else ""
    let r := totalAllocationsAux used rest (s + 1) (c * 2)
    (line ++ r.1, u * c + r.2.1, cls.length * c + r.2.2)

/-- `func (m *Manager) TotalAllocations() string`.  The Go body performs reads
only — it contains no assignment to any field of `m` — so the embedding
returns the report string together with the (unchanged) manager state. -/
def Manager.TotalAllocations (m : Manager) : String × Manager :=
  let r := totalAllocationsAux m.used m.blocks 0 smallestBlockSize
  (r.1 ++ "Total memory used/allocated: " ++ toString r.2.1 ++ "/" ++
    toString r.2.2 ++ "\n", m)

/-- Mutex operations, for recording which lock/unlock calls appear in each
method body of the source. -/
inductive LockEvent where
  | lock
  | unlock
deriving DecidableEq

/-- `GetBlock`'s body runs `m.mutex.Lock()` on entry and the deferred
`m.mutex.Unlock()` on exit. -/
def getBlockLockEvents : List LockEvent := [LockEvent.lock, LockEvent.unlock]

/-- `FreeBlock`'s body runs `m.mutex.Lock()` on entry and the deferred
`m.mutex.Unlock()` on exit (the deferred unlock also runs when it panics). -/
def freeBlockLockEvents : List LockEvent := [LockEvent.lock, LockEvent.unlock]

/-- `TotalAllocations`' body contains no mutex operation at all: unlike the
other two methods, the source takes no lock before reading `m.blocks` and
`m.used`. -/
def totalAllocationsLockEvents : List LockEvent := []

/-- Total bytes ever allocated: sum over classes of class size times block
count, with the class size doubling from `c` (matches the `total_allocated`
accumulator of `TotalAllocations`). -/
def totalBytes : List (List Block) → Nat → Nat
  | [], _ => 0
  | cls :: rest, c => cls.length * c + totalBytes rest (c * 2)

/-- Total bytes ever allocated by the manager. -/
def totalAllocated (m : Manager) : Nat :=
  totalBytes m.blocks smallestBlockSize

/-- One caller-issued operation on the manager. -/
inductive Op where
  | get (n : Nat)
  | free (b : ByteView)
  | report
deriving DecidableEq

/-- Execute one operation; a panicking operation leaves the state unchanged
(the panic happens before any mutation and the deferred unlock releases the
mutex). -/
def Manager.step (m : Manager) : Op → Manager
  | Op.get n =>
    match m.GetBlock n with
    | Except.ok r => r.2
    | Except.error _ => m
  | Op.free b =>
    match m.FreeBlock b with
    | Except.ok m' => m'
    | Except.error _ => m
  | Op.report => (m.TotalAllocations).2

/-- Execute a sequence of operations (each serialized by the mutex). -/
def Manager.run (m : Manager) (ops : List Op) : Manager :=
  ops.foldl Manager.step m

/-- Every identity in the checked-out set refers to an existing block of an
existing class.  Holds for `NewManager` and is preserved by every operation. -/
def usedValid (m : Manager) : Prop :=
  ∀ p ∈ m.used, p.1 < m.blocks.length ∧ p.2 < (m.blocks.getD p.1 []).length

instance (m : Manager) : Decidable (usedValid m) := by
  unfold usedValid; infer_instance

/-- The class table always has 21 classes, and every block in class `s` has
physical length `classSize s`. -/
def blocksWF (m : Manager) : Prop :=
  m.blocks.length = numSizeClasses ∧
    ∀ s < m.blocks.length, ∀ i < (m.blocks.getD s []).length,
      ((m.blocks.getD s []).getD i []).length = classSize s

instance (m : Manager) : Decidable (blocksWF m) := by
  unfold blocksWF; infer_instance

/-- Every byte of the list is zero. -/
def allZero (l : List Nat) : Prop := ∀ x ∈ l, x = 0

instance (l : List Nat) : Decidable (allZero l) := by
  unfold allZero; infer_instance

/-- A result that models a Go panic. -/
def panics {α : Type} (r : Except MemErr α) : Prop :=
  ∃ e, r = Except.error e

/-- There is a free block in the target class for a request of size `n`
(the reuse scan succeeds). -/
def hasFree (m : Manager) (n : Nat) : Prop :=
  (freeIndex m.used (findClass n).2 (m.blocks.getD (findClass n).2 [])).isSome = true

instance (m : Manager) (n : Nat) : Decidable (hasFree m n) := by
  unfold hasFree; infer_instance

/-- Class `s` is the smallest size class whose capacity covers a request of
size `n`. -/
def minimalClassFor (n s : Nat) : Prop :=
  n ≤ classSize s ∧ ∀ t, n ≤ classSize t → s ≤ t

/-- Total projection of a successful `GetBlock`, for instantiating theorems at
concrete inputs (on an error it returns a dummy view and the unchanged
manager). -/
def getOk (m : Manager) (n : Nat) : ByteView × Manager :=
  match m.GetBlock n with
  | Except.ok r => r
  | Except.error _ => (⟨0, 0, []⟩, m)

/-- Total projection of a successful `FreeBlock`. -/
def freeOk (m : Manager) (b : ByteView) : Manager :=
  match m.FreeBlock b with
  | Except.ok m' => m'
  | Except.error _ => m

/-! ## The size-class search with Go 64-bit `int` semantics -/

/-- Two's complement wrap of a mathematical integer into `[-2^63, 2^63)`:
the semantics of overflowing Go `int` multiplication on 64-bit platforms. -/
def wrap64 (x : Int) : Int := (x + 2 ^ 63) % 2 ^ 64 - 2 ^ 63

/-- The size-class search loop of `GetBlock` with Go `int` semantics:
`c := 1024; s := 0; for c < n { c *= 2; s++ }` where `c *= 2` wraps at 64
bits.  `none` means the loop has not finished within `fuel` iterations. -/
def findClassGoAux : Nat → Int → Int → Nat → Option (Int × Nat)
  | 0, _, _, _ => none
  | fuel + 1, n, c, s =>
    if c < n then findClassGoAux fuel n (wrap64 (c * 2)) (s + 1) else some (c, s)

/-- Outcome of `GetBlock`'s class search followed by the `m.blocks[s]` access
on Go 64-bit integers, for the 21-entry class table that `NewManager` builds
and every operation preserves: `some (.ok s)` when a valid class is reached,
`some (.error .indexOutOfRange)` when the table access panics, and `none`
when the loop is still running after `fuel` iterations. -/
def getBlockClassOutcome (fuel : Nat) (n : Int) : Option (Except MemErr Nat) :=
  match findClassGoAux fuel n 1024 0 with
  | none => none
  | some (_, s) =>
    if s < numSizeClasses then some (Except.ok s)
    else some (Except.error MemErr.indexOutOfRange)

/-- The class-search loop of `GetBlock` never terminates for request `n`:
no amount of fuel finishes it, so the Go call hangs instead of returning or
panicking. -/
def getBlockDiverges (n : Int) : Prop :=
  ∀ fuel, getBlockClassOutcome fuel n = none

/-- Loop states reachable from `c = 1024` once `n` exceeds `2^62`: the powers
`2^10 .. 2^62`, then the overflowed value `-2^63`, and finally `0`, a fixed
point of the wrapping doubling. -/
def searchState (c : Int) : Prop :=
  c = 0 ∨ c = -(2 ^ 63) ∨ ∃ k, k ≤ 52 ∧ c = 2 ^ (10 + k)

/-- Concrete run for the view-length property: `GetBlock(500)` on a fresh
manager, `FreeBlock` of the result, then `GetBlock(500)` again (which reuses
the freed block); records the lengths of the two returned views. -/
def reuseLengthScenario : Option (Nat × Nat) :=
  match NewManager.GetBlock 500 with
  | Except.error _ => none
  | Except.ok (v1, m1) =>
    match m1.FreeBlock v1 with
    | Except.error _ => none
    | Except.ok m2 =>
      match m2.GetBlock 500 with
      | Except.error _ => none
      | Except.ok (v2, _) => some (v1.data.length, v2.data.length)

/-- Concrete run for the size-0 acquire property: `GetBlock(1000)` on a fresh
manager, `FreeBlock` of the result, then `GetBlock(0)` (which reuses the freed
block) followed by `FreeBlock` of that view; records the length of the view
returned by `GetBlock(0)` and whether releasing it succeeded. -/
def zeroAcquireScenario : Option (Nat × Bool) :=
  match NewManager.GetBlock 1000 with
  | Except.error _ => none
  | Except.ok (v1, m1) =>
    match m1.FreeBlock v1 with
    | Except.error _ => none
    | Except.ok m2 =>
      match m2.GetBlock 0 with
      | Except.error _ => none
      | Except.ok (v2, m3) =>
        match m3.FreeBlock v2 with
        | Except.ok _ => some (v2.data.length, true)
        | Except.error _ => some (v2.data.length, false)


/-! ## Size-class search: specification of the doubling loop -/

theorem findClassAux_spec :
    ∀ fuel c s n, 0 < c → n ≤ c + fuel →
      ∃ k, findClassAux fuel n c s = (c * 2 ^ k, s + k) ∧ n ≤ c * 2 ^ k ∧
        ∀ j, j < k → c * 2 ^ j < n := by
  intro fuel
  induction fuel with
  | zero =>
    intro c s n hc hn
    refine ⟨0, ?_, ?_, ?_⟩
    · simp [findClassAux]
    · simpa using hn
    · intro j hj; omega
  | succ fuel ih =>
    intro c s n hc hn
    by_cases h : c < n
    · obtain ⟨k, hk, hle, hmin⟩ := ih (c * 2) (s + 1) n (by omega) (by omega)
      refine ⟨k + 1, ?_, ?_, ?_⟩
      · simp only [findClassAux, if_pos h]
        rw [hk]
        have h1 : c * 2 * 2 ^ k = c * 2 ^ (k + 1) := by ring
        have h2 : s + 1 + k = s + (k + 1) := by omega
        rw [h1, h2]
      · calc n ≤ c * 2 * 2 ^ k := hle
          _ = c * 2 ^ (k + 1) := by ring
      · intro j hj
        cases j with
        | zero => simpa using h
        | succ j' =>
          have := hmin j' (by omega)
          calc c * 2 ^ (j' + 1) = c * 2 * 2 ^ j' := by ring
            _ < n := this
    · exact ⟨0, by simp [findClassAux, if_neg h], by simpa using Nat.le_of_not_lt h,
        by intro j hj; omega⟩

theorem findClass_spec (n : Nat) :
    ∃ k, findClass n = (classSize k, k) ∧ n ≤ classSize k ∧
      ∀ j, j < k → classSize j < n := by
  obtain ⟨k, hk, hle, hmin⟩ :=
    findClassAux_spec n smallestBlockSize 0 n (by decide) (by omega)
  exact ⟨k, by simpa [findClass, classSize] using hk,
    by simpa [classSize] using hle, by simpa [classSize] using hmin⟩

theorem findClass_fst (n : Nat) : (findClass n).1 = classSize (findClass n).2 := by
  obtain ⟨k, hk, -, -⟩ := findClass_spec n
  rw [hk]

theorem findClass_le (n : Nat) : n ≤ classSize (findClass n).2 := by
  obtain ⟨k, hk, hle, -⟩ := findClass_spec n
  rw [hk]; exact hle

theorem findClass_min (n : Nat) : ∀ t, n ≤ classSize t → (findClass n).2 ≤ t := by
  obtain ⟨k, hk, -, hmin⟩ := findClass_spec n
  intro t ht
  rw [hk]
  by_contra h
  exact absurd ht (by simpa using hmin t (by omega))

theorem classSize_mono : ∀ {a b : Nat}, a ≤ b → classSize a ≤ classSize b := by
  intro a b h
  exact Nat.mul_le_mul_left _ (Nat.pow_le_pow_right (by omega) h)

theorem findClass_lt_numClasses {n : Nat} (h : n ≤ 2 ^ 30) :
    (findClass n).2 < numSizeClasses := by
  have h20 : n ≤ classSize 20 := by
    calc n ≤ 2 ^ 30 := h
      _ = classSize 20 := by decide
  have := findClass_min n 20 h20
  simp only [numSizeClasses]
  omega

theorem findClass_ge_numClasses {n : Nat} (h : 2 ^ 30 < n) :
    numSizeClasses ≤ (findClass n).2 := by
  obtain ⟨k, hk, hle, -⟩ := findClass_spec n
  rw [hk]
  by_contra hlt
  have hk20 : k ≤ 20 := by simp only [numSizeClasses] at hlt; omega
  have : classSize k ≤ classSize 20 := classSize_mono hk20
  have : n ≤ 2 ^ 30 := by
    calc n ≤ classSize k := hle
      _ ≤ classSize 20 := this
      _ = 2 ^ 30 := by decide
  omega

/-! ## Inversion lemmas for the operations -/

theorem getD_eq_of_get? {α : Type} {l : List α} {k : Nat} {x d : α}
    (h : l.get? k = some x) : l.getD k d = x := by
  simp only [List.get?_eq_getElem?] at h
  simp [List.getD_eq_getElem?_getD, h]

theorem freeIndex_some {used : Finset (Nat × Nat)} {s : Nat} {cls : List Block}
    {i : Nat} (h : freeIndex used s cls = some i) :
    i < cls.length ∧ (s, i) ∉ used := by
  unfold freeIndex at h
  have h1 := List.find?_some h
  have h2 := List.mem_of_find?_eq_some h
  simp only [List.mem_range] at h2
  simp only [Bool.not_eq_true', decide_eq_false_iff_not] at h1
  exact ⟨h2, h1⟩

/-- Complete case analysis of a successful `GetBlock`: either the reuse path
(first free block `i` of the class, zeroed whole) or the allocation path
(fresh block appended, view `new_block[0:n]`). -/
theorem Manager.GetBlock_ok {m : Manager} {n : Nat} {v : ByteView} {m' : Manager}
    (h : m.GetBlock n = Except.ok (v, m')) :
    ∃ cls, m.blocks.get? (findClass n).2 = some cls ∧ v.sIdx = (findClass n).2 ∧
      ((∃ i, freeIndex m.used (findClass n).2 cls = some i ∧ v.bIdx = i ∧
          v.data = List.replicate (cls.getD i []).length 0 ∧
          m'.blocks = m.blocks.set (findClass n).2 (cls.set i v.data) ∧
          m'.used = insert ((findClass n).2, i) m.used) ∨
        (freeIndex m.used (findClass n).2 cls = none ∧ v.bIdx = cls.length ∧
          v.data = (List.replicate (findClass n).1 0).take n ∧
          m'.blocks =
            m.blocks.set (findClass n).2 (cls ++ [List.replicate (findClass n).1 0]) ∧
          m'.used = insert ((findClass n).2, cls.length) m.used)) := by
  simp only [Manager.GetBlock] at h
  split at h
  · exact absurd h (by simp)
  · rename_i cls hg
    split at h
    · rename_i i hf
      simp only [Except.ok.injEq, Prod.mk.injEq] at h
      obtain ⟨hv, hm⟩ := h
      subst hv; subst hm
      exact ⟨cls, hg, rfl, Or.inl ⟨i, hf, rfl, rfl, rfl, rfl⟩⟩
    · rename_i hf
      simp only [Except.ok.injEq, Prod.mk.injEq] at h
      obtain ⟨hv, hm⟩ := h
      subst hv; subst hm
      exact ⟨cls, hg, rfl, Or.inr ⟨hf, rfl, rfl, rfl, rfl⟩⟩

/-- Every successful `GetBlock` returns an all-zero view: the reuse path
zeroes the whole block before returning it, and the allocation path slices a
freshly zero-initialized block. -/
theorem Manager.GetBlock_allZero {m : Manager} {n : Nat} {v : ByteView}
    {m' : Manager} (h : m.GetBlock n = Except.ok (v, m')) : allZero v.data := by
  obtain ⟨cls, -, -, hcase⟩ := Manager.GetBlock_ok h
  intro x hx
  rcases hcase with ⟨i, -, -, hdata, -, -⟩ | ⟨-, -, hdata, -, -⟩
  · rw [hdata] at hx
    exact List.eq_of_mem_replicate hx
  · rw [hdata] at hx
    exact List.eq_of_mem_replicate (List.mem_of_mem_take hx)

theorem lt_length_of_get? {α : Type} {l : List α} {k : Nat} {x : α}
    (h : l.get? k = some x) : k < l.length := by
  simp only [List.get?_eq_getElem?] at h
  exact (List.getElem?_eq_some_iff.1 h).1

theorem getD_set_self {α : Type} {l : List α} {k : Nat} {x d : α}
    (hk : k < l.length) : (l.set k x).getD k d = x := by
  simp [List.getD_eq_getElem?_getD, List.getElem?_set_self hk]

theorem getD_set_ne {α : Type} {l : List α} {j k : Nat} {x d : α} (h : j ≠ k) :
    (l.set j x).getD k d = l.getD k d := by
  simp [List.getD_eq_getElem?_getD, List.getElem?_set_ne h]

/-- Complete characterization of a successful `FreeBlock`: the view is
nonempty, its block was checked out, and the only change is removing that
identity from the checked-out set. -/
theorem Manager.FreeBlock_ok {m : Manager} {b : ByteView} {m' : Manager}
    (h : m.FreeBlock b = Except.ok m') :
    b.data.length ≠ 0 ∧ (b.sIdx, b.bIdx) ∈ m.used ∧
      m'.used = m.used.erase (b.sIdx, b.bIdx) ∧ m'.blocks = m.blocks := by
  unfold Manager.FreeBlock at h
  split at h
  · exact absurd h (by simp)
  · rename_i hlen
    split at h
    · rename_i hmem
      simp only [Except.ok.injEq] at h
      subst h
      exact ⟨hlen, hmem, rfl, rfl⟩
    · exact absurd h (by simp)

/-- `GetBlock` only ever adds to the checked-out set. -/
theorem Manager.GetBlock_used_mono {m : Manager} {n : Nat} {v : ByteView}
    {m' : Manager} (h : m.GetBlock n = Except.ok (v, m')) : m.used ⊆ m'.used := by
  obtain ⟨cls, -, -, hcase⟩ := Manager.GetBlock_ok h
  rcases hcase with ⟨i, -, -, -, -, hused⟩ | ⟨-, -, -, -, hused⟩ <;>
    · rw [hused]; exact Finset.subset_insert _ _

/-- The block `GetBlock` hands out was not checked out before the call and is
checked out after it. -/
theorem Manager.GetBlock_fresh {m : Manager} {n : Nat} {v : ByteView}
    {m' : Manager} (hu : usedValid m) (h : m.GetBlock n = Except.ok (v, m')) :
    (v.sIdx, v.bIdx) ∉ m.used ∧ (v.sIdx, v.bIdx) ∈ m'.used := by
  obtain ⟨cls, hg, hs, hcase⟩ := Manager.GetBlock_ok h
  rcases hcase with ⟨i, hf, hb, -, -, hused⟩ | ⟨-, hb, -, -, hused⟩
  · obtain ⟨-, hinot⟩ := freeIndex_some hf
    rw [hs, hb, hused]
    exact ⟨hinot, Finset.mem_insert_self _ _⟩
  · rw [hs, hb, hused]
    constructor
    · intro hmem
      have h2 := (hu _ hmem).2
      rw [getD_eq_of_get? hg] at h2
      exact absurd h2 (lt_irrefl _)
    · exact Finset.mem_insert_self _ _

theorem Manager.GetBlock_usedValid {m : Manager} {n : Nat} {v : ByteView}
    {m' : Manager} (hu : usedValid m) (h : m.GetBlock n = Except.ok (v, m')) :
    usedValid m' := by
  obtain ⟨cls, hg, -, hcase⟩ := Manager.GetBlock_ok h
  have hslt : (findClass n).2 < m.blocks.length := lt_length_of_get? hg
  have hgD : m.blocks.getD (findClass n).2 [] = cls := getD_eq_of_get? hg
  rcases hcase with ⟨i, hf, -, -, hblocks, hused⟩ | ⟨-, -, -, hblocks, hused⟩
  · obtain ⟨hilt, -⟩ := freeIndex_some hf
    intro p hp
    rw [hblocks, List.length_set]
    rw [hused] at hp
    rcases Finset.mem_insert.1 hp with rfl | hp'
    · refine ⟨hslt, ?_⟩
      rw [getD_set_self hslt, List.length_set]
      exact hilt
    · obtain ⟨h1, h2⟩ := hu p hp'
      refine ⟨h1, ?_⟩
      by_cases hps : (findClass n).2 = p.1
      · rw [← hps, getD_set_self hslt, List.length_set]
        rw [← hps, hgD] at h2
        exact h2
      · rw [getD_set_ne hps]
        exact h2
  · intro p hp
    rw [hblocks, List.length_set]
    rw [hused] at hp
    rcases Finset.mem_insert.1 hp with rfl | hp'
    · refine ⟨hslt, ?_⟩
      rw [getD_set_self hslt]
      simp
    · obtain ⟨h1, h2⟩ := hu p hp'
      refine ⟨h1, ?_⟩
      by_cases hps : (findClass n).2 = p.1
      · rw [← hps, getD_set_self hslt]
        rw [← hps, hgD] at h2
        simp only [List.length_append, List.length_singleton]
        omega
      · rw [getD_set_ne hps]
        exact h2


theorem Manager.FreeBlock_usedValid {m : Manager} {b : ByteView} {m' : Manager}
    (hu : usedValid m) (h : m.FreeBlock b = Except.ok m') : usedValid m' := by
  obtain ⟨-, -, hused, hblocks⟩ := Manager.FreeBlock_ok h
  intro p hp
  rw [hblocks]
  rw [hused] at hp
  exact hu p (Finset.mem_of_mem_erase hp)

theorem Manager.step_usedValid {m : Manager} (hu : usedValid m) (op : Op) :
    usedValid (m.step op) := by
  cases op with
  | get n =>
    simp only [Manager.step]
    split
    · rename_i r hr
      exact Manager.GetBlock_usedValid hu hr
    · exact hu
  | free b =>
    simp only [Manager.step]
    split
    · rename_i m2 hm2
      exact Manager.FreeBlock_usedValid hu hm2
    · exact hu
  | report => exact hu

theorem Manager.run_usedValid {m : Manager} {ops : List Op} (hu : usedValid m) :
    usedValid (m.run ops) := by
  induction ops generalizing m with
  | nil => exact hu
  | cons op rest ih => exact ih (Manager.step_usedValid hu op)

/-- A checked-out identity stays checked out across any operation that is not
a `FreeBlock` of that very identity. -/
theorem Manager.step_mem_used {m : Manager} {id : Nat × Nat} (op : Op)
    (hid : id ∈ m.used) (hop : ∀ b, op = Op.free b → (b.sIdx, b.bIdx) ≠ id) :
    id ∈ (m.step op).used := by
  cases op with
  | get n =>
    simp only [Manager.step]
    split
    · rename_i r hr
      exact Manager.GetBlock_used_mono hr hid
    · exact hid
  | free b =>
    simp only [Manager.step]
    split
    · rename_i m2 hm2
      obtain ⟨-, -, hused, -⟩ := Manager.FreeBlock_ok hm2
      rw [hused]
      exact Finset.mem_erase.2 ⟨fun he => hop b rfl (by rw [he]), hid⟩
    · exact hid
  | report => exact hid

theorem Manager.run_mem_used {m : Manager} {id : Nat × Nat} {ops : List Op}
    (hid : id ∈ m.used)
    (hops : ∀ b, Op.free b ∈ ops → (b.sIdx, b.bIdx) ≠ id) :
    id ∈ (m.run ops).used := by
  induction ops generalizing m with
  | nil => exact hid
  | cons op rest ih =>
    refine ih (Manager.step_mem_used op hid ?_) ?_
    · intro b hb
      exact hops b (by rw [hb]; exact List.mem_cons_self _ _)
    · intro b hb
      exact hops b (List.mem_cons_of_mem _ hb)

theorem getD_append_left {α : Type} {l : List α} {x : α} {k : Nat} {d : α}
    (hk : k < l.length) : (l ++ [x]).getD k d = l.getD k d := by
  simp [List.getD_eq_getElem?_getD, List.getElem?_append_left hk]

theorem getD_append_length {α : Type} {l : List α} {x : α} {d : α} :
    (l ++ [x]).getD l.length d = x := by
  simp [List.getD_eq_getElem?_getD, List.getElem?_concat_length]

/-- `GetBlock` keeps the class table well formed: the reuse path replaces a
block by an equally long zeroed block, and the allocation path appends a block
of exactly `classSize s` bytes. -/
theorem Manager.GetBlock_blocksWF {m : Manager} {n : Nat} {v : ByteView}
    {m' : Manager} (hw : blocksWF m) (h : m.GetBlock n = Except.ok (v, m')) :
    blocksWF m' := by
  obtain ⟨hlen, hcls⟩ := hw
  obtain ⟨cls, hg, hs, hcase⟩ := Manager.GetBlock_ok h
  have hslt : (findClass n).2 < m.blocks.length := lt_length_of_get? hg
  have hgD : m.blocks.getD (findClass n).2 [] = cls := getD_eq_of_get? hg
  rcases hcase with ⟨i, hf, -, hdata, hblocks, -⟩ | ⟨-, -, -, hblocks, -⟩
  · obtain ⟨hilt, -⟩ := freeIndex_some hf
    constructor
    · rw [hblocks, List.length_set]; exact hlen
    · intro t ht i' hi'
      rw [hblocks, List.length_set] at ht
      by_cases hts : (findClass n).2 = t
      · rw [hblocks, ← hts, getD_set_self hslt] at hi' ⊢
        rw [List.length_set] at hi'
        by_cases hii : i = i'
        · rw [← hii, getD_set_self hilt, hdata]
          simp only [List.length_replicate]
          have hx := hcls (findClass n).2 hslt i (by rw [hgD]; exact hilt)
          rw [hgD] at hx
          exact hx
        · rw [getD_set_ne hii]
          have hx := hcls (findClass n).2 hslt i' (by rw [hgD]; exact hi')
          rw [hgD] at hx
          exact hx
      · rw [hblocks, getD_set_ne hts] at hi' ⊢
        exact hcls t ht i' hi'
  · constructor
    · rw [hblocks, List.length_set]; exact hlen
    · intro t ht i' hi'
      rw [hblocks, List.length_set] at ht
      by_cases hts : (findClass n).2 = t
      · rw [hblocks, ← hts, getD_set_self hslt] at hi' ⊢
        simp only [List.length_append, List.length_singleton] at hi'
        by_cases hii : i' < cls.length
        · rw [getD_append_left hii]
          have hx := hcls (findClass n).2 hslt i' (by rw [hgD]; exact hii)
          rw [hgD] at hx
          exact hx
        · have hieq : i' = cls.length := by omega
          rw [hieq, getD_append_length]
          simp only [List.length_replicate]
          rw [findClass_fst]
      · rw [hblocks, getD_set_ne hts] at hi' ⊢
        exact hcls t ht i' hi'

theorem Manager.FreeBlock_blocksWF {m : Manager} {b : ByteView} {m' : Manager}
    (hw : blocksWF m) (h : m.FreeBlock b = Except.ok m') : blocksWF m' := by
  obtain ⟨-, -, -, hblocks⟩ := Manager.FreeBlock_ok h
  obtain ⟨hlen, hcls⟩ := hw
  constructor
  · rw [hblocks]; exact hlen
  · intro t ht i' hi'
    rw [hblocks] at ht hi' ⊢
    exact hcls t ht i' hi'

/-! ## Total allocated bytes -/

theorem totalBytes_set_same_length :
    ∀ (bs : List (List Block)) (s : Nat) (cls cls' : List Block) (c : Nat),
      bs.get? s = some cls → cls'.length = cls.length →
      totalBytes (bs.set s cls') c = totalBytes bs c := by
  intro bs
  induction bs with
  | nil => intro s cls cls' c h _; simp at h
  | cons hd tl ih =>
    intro s cls cls' c h hlen
    cases s with
    | zero =>
      simp only [List.get?] at h
      injection h with h
      subst h
      simp [totalBytes, List.set, hlen]
    | succ s' =>
      simp only [List.get?] at h
      simp only [List.set, totalBytes]
      rw [ih s' cls cls' (c * 2) h hlen]

theorem totalBytes_set_append :
    ∀ (bs : List (List Block)) (s : Nat) (cls : List Block) (nb : Block) (c : Nat),
      bs.get? s = some cls →
      totalBytes (bs.set s (cls ++ [nb])) c = totalBytes bs c + c * 2 ^ s := by
  intro bs
  induction bs with
  | nil => intro s cls nb c h; simp at h
  | cons hd tl ih =>
    intro s cls nb c h
    cases s with
    | zero =>
      simp only [List.get?] at h
      injection h with h
      subst h
      simp only [List.set, totalBytes, List.length_append, List.length_singleton,
        Nat.pow_zero, Nat.mul_one]
      ring
    | succ s' =>
      simp only [List.get?] at h
      simp only [List.set, totalBytes]
      rw [ih s' cls nb (c * 2) h]
      have : c * 2 * 2 ^ s' = c * 2 ^ (s' + 1) := by ring
      rw [this]
      omega

/-- Effect of one `GetBlock` on the total bytes ever allocated: unchanged when
a free block is reused, grown by exactly the class size when a new block is
allocated. -/
theorem Manager.GetBlock_totalAllocated {m : Manager} {n : Nat} {v : ByteView}
    {m' : Manager} (h : m.GetBlock n = Except.ok (v, m')) :
    (hasFree m n → totalAllocated m' = totalAllocated m) ∧
      (¬ hasFree m n →
        totalAllocated m' = totalAllocated m + classSize (findClass n).2) := by
  obtain ⟨cls, hg, -, hcase⟩ := Manager.GetBlock_ok h
  have hgD : m.blocks.getD (findClass n).2 [] = cls := getD_eq_of_get? hg
  have hfree : hasFree m n ↔ (freeIndex m.used (findClass n).2 cls).isSome = true := by
    unfold hasFree
    rw [hgD]
  rcases hcase with ⟨i, hf, -, hdata, hblocks, -⟩ | ⟨hf, -, -, hblocks, -⟩
  · constructor
    · intro _
      unfold totalAllocated
      rw [hblocks]
      exact totalBytes_set_same_length _ _ _ _ _ hg (by simp)
    · intro hnf
      exact absurd (hfree.2 (by rw [hf]; rfl)) hnf
  · constructor
    · intro hfr
      rw [hfree, hf] at hfr
      exact absurd hfr (by simp)
    · intro _
      unfold totalAllocated
      rw [hblocks]
      rw [totalBytes_set_append _ _ _ _ _ hg]
      rfl

theorem Manager.FreeBlock_totalAllocated {m : Manager} {b : ByteView}
    {m' : Manager} (h : m.FreeBlock b = Except.ok m') :
    totalAllocated m' = totalAllocated m := by
  obtain ⟨-, -, -, hblocks⟩ := Manager.FreeBlock_ok h
  unfold totalAllocated
  rw [hblocks]

theorem Manager.step_totalAllocated_mono (m : Manager) (op : Op) :
    totalAllocated m ≤ totalAllocated (m.step op) := by
  cases op with
  | get n =>
    simp only [Manager.step]
    split
    · rename_i r hr
      obtain ⟨h1, h2⟩ := @Manager.GetBlock_totalAllocated m n r.1 r.2 hr
      by_cases hfr : hasFree m n
      · rw [h1 hfr]
      · rw [h2 hfr]; omega
    · exact Nat.le_refl _
  | free b =>
    simp only [Manager.step]
    split
    · rename_i m2 hm2
      rw [Manager.FreeBlock_totalAllocated hm2]
    · exact Nat.le_refl _
  | report => exact Nat.le_refl _

theorem Manager.run_totalAllocated_mono (m : Manager) (ops : List Op) :
    totalAllocated m ≤ totalAllocated (m.run ops) := by
  induction ops generalizing m with
  | nil => exact Nat.le_refl _
  | cons op rest ih =>
    exact Nat.le_trans (Manager.step_totalAllocated_mono m op) (ih (m.step op))

theorem wrap64_eq_self {x : Int} (h1 : -(2 ^ 63) ≤ x) (h2 : x < 2 ^ 63) :
    wrap64 x = x := by
  unfold wrap64
  rw [Int.emod_eq_of_lt (by omega) (by omega)]
  omega

/-- In-range lockstep: whenever the `Nat` loop finishes in `k` doublings with
`c * 2^k < 2^63`, the Go `int` loop wraps nowhere and computes the same
result. -/
theorem findClassGoAux_of_spec :
    ∀ (k fuel c s n : Nat), 0 < c → c * 2 ^ k < 2 ^ 63 →
      n ≤ c * 2 ^ k → (∀ j, j < k → c * 2 ^ j < n) → k < fuel →
      findClassGoAux fuel (n : Int) (c : Int) s =
        some (((c * 2 ^ k : Nat) : Int), s + k) := by
  intro k
  induction k with
  | zero =>
    intro fuel c s n hc hck hn hmin hkf
    cases fuel with
    | zero => omega
    | succ f =>
      simp only [findClassGoAux]
      rw [if_neg (by exact_mod_cast Nat.not_lt.2 (by simpa using hn))]
      simp
  | succ k ih =>
    intro fuel c s n hc hck hn hmin hkf
    cases fuel with
    | zero => omega
    | succ f =>
      have hcn : c < n := by simpa using hmin 0 (by omega)
      simp only [findClassGoAux]
      rw [if_pos (by exact_mod_cast hcn)]
      have hpow : (2 : Nat) ≤ 2 ^ (k + 1) := by
        have h0 := Nat.pow_le_pow_right (show 0 < 2 by omega) (show 1 ≤ k + 1 by omega)
        simpa using h0
      have hc2 : c * 2 < 2 ^ 63 := by
        have h1 : c * 2 ≤ c * 2 ^ (k + 1) := Nat.mul_le_mul_left c hpow
        omega
      have hwrap : wrap64 ((c : Int) * 2) = ((c * 2 : Nat) : Int) := by
        have hpos : (0 : Int) ≤ (c : Int) * 2 := by positivity
        rw [wrap64_eq_self (by omega) (by exact_mod_cast hc2)]
        push_cast
        ring
      rw [hwrap]
      have hck' : c * 2 * 2 ^ k < 2 ^ 63 := by
        have : c * 2 * 2 ^ k = c * 2 ^ (k + 1) := by ring
        omega
      have hn' : n ≤ c * 2 * 2 ^ k := by
        have : c * 2 * 2 ^ k = c * 2 ^ (k + 1) := by ring
        omega
      have hmin' : ∀ j, j < k → c * 2 * 2 ^ j < n := by
        intro j hj
        have : c * 2 * 2 ^ j = c * 2 ^ (j + 1) := by ring
        rw [this]
        exact hmin (j + 1) (by omega)
      have := ih f (c * 2) (s + 1) n (by omega) hck' hn' hmin' (by omega)
      rw [this]
      have h1 : c * 2 * 2 ^ k = c * 2 ^ (k + 1) := by ring
      have h2 : s + 1 + k = s + (k + 1) := by omega
      rw [h1, h2]

theorem classSize_eq_two_pow (s : Nat) : classSize s = 2 ^ (10 + s) := by
  unfold classSize smallestBlockSize
  rw [pow_add]
  norm_num

/-- For every `2^30 < n ≤ 2^62` the Go class search terminates within 64
iterations at a class index `≥ 21`, so `m.blocks[s]` panics with an index out
of range: a deterministic panic, with the class table left ungrown. -/
theorem getBlockClassOutcome_error {n : Int} (h1 : 2 ^ 30 < n) (h2 : n ≤ 2 ^ 62) :
    getBlockClassOutcome 64 n = some (Except.error MemErr.indexOutOfRange) := by
  have hn0 : 0 ≤ n := by omega
  obtain ⟨nn, rfl⟩ : ∃ nn : Nat, n = (nn : Int) :=
    ⟨n.toNat, (Int.toNat_of_nonneg hn0).symm⟩
  have h1' : 2 ^ 30 < nn := by exact_mod_cast h1
  have h2' : nn ≤ 2 ^ 62 := by exact_mod_cast h2
  obtain ⟨k, hk, hle, hmin⟩ := findClass_spec nn
  have hk52 : k ≤ 52 := by
    by_contra hgt
    have h52 := hmin 52 (by omega)
    rw [classSize_eq_two_pow] at h52
    norm_num at h52
    omega
  have hck : smallestBlockSize * 2 ^ k < 2 ^ 63 := by
    have : smallestBlockSize * 2 ^ k = 2 ^ (10 + k) := by
      rw [← classSize_eq_two_pow]; rfl
    rw [this]
    exact Nat.pow_lt_pow_right (by omega) (by omega)
  have hlock := findClassGoAux_of_spec k 64 smallestBlockSize 0 nn (by decide) hck
    (by simpa [classSize] using hle)
    (by intro j hj; simpa [classSize] using hmin j hj)
    (by omega)
  have hcast : ((smallestBlockSize : Nat) : Int) = 1024 := by
    norm_num [smallestBlockSize]
  rw [hcast] at hlock
  unfold getBlockClassOutcome
  rw [hlock]
  have hge : numSizeClasses ≤ k := by
    have hx := findClass_ge_numClasses h1'
    rw [hk] at hx
    exact hx
  dsimp only
  rw [if_neg (by omega)]

theorem searchState_le {c : Int} (h : searchState c) : c ≤ 2 ^ 62 := by
  rcases h with rfl | rfl | ⟨k, hk, rfl⟩
  · norm_num
  · norm_num
  · exact pow_le_pow_right₀ (by norm_num) (by omega)

theorem searchState_step {c : Int} (h : searchState c) :
    searchState (wrap64 (c * 2)) := by
  rcases h with rfl | rfl | ⟨k, hk, rfl⟩
  · left; decide
  · left; decide
  · by_cases hk52 : k = 52
    · subst hk52
      right; left
      decide
    · right; right
      refine ⟨k + 1, by omega, ?_⟩
      have hlt : (2 : Int) ^ (10 + k) * 2 < 2 ^ 63 := by
        have he : (2 : Int) ^ (10 + k) * 2 = 2 ^ (11 + k) := by
          rw [show 11 + k = (10 + k) + 1 by omega, pow_succ]
        rw [he]
        exact pow_lt_pow_right₀ (by norm_num) (by omega)
      have hpos : (0 : Int) ≤ 2 ^ (10 + k) * 2 := by positivity
      rw [wrap64_eq_self (by omega) hlt]
      rw [show 10 + (k + 1) = (10 + k) + 1 by omega, pow_succ]

theorem findClassGoAux_none {n : Int} (hn : 2 ^ 62 < n) :
    ∀ fuel c s, searchState c → findClassGoAux fuel n c s = none := by
  intro fuel
  induction fuel with
  | zero => intro c s _; rfl
  | succ f ih =>
    intro c s h
    have hlt : c < n := lt_of_le_of_lt (searchState_le h) hn
    simp only [findClassGoAux, if_pos hlt]
    exact ih _ _ (searchState_step h)

/-- For every request above `2^62` the capacity variable of the class-search
loop overflows through `-2^63` to `0` and the loop never terminates: the Go
call hangs instead of signalling anything. -/
theorem getBlockDiverges_of_gt {n : Int} (hn : 2 ^ 62 < n) : getBlockDiverges n := by
  intro fuel
  unfold getBlockClassOutcome
  rw [findClassGoAux_none hn fuel 1024 0 (Or.inr (Or.inr ⟨0, by omega, by norm_num⟩))]

/-! ## Claim theorems -/

set_option maxRecDepth 100000 in
/-- C1: the claim says every `GetBlock(n)` returns a view of length exactly
`n`, on the reuse path as well as on the allocation path.  The code's reuse
path instead executes `return m.blocks[s][i]` — the full block.  Evaluating
the program: `GetBlock(500)` on a fresh manager returns a 500-byte view
(the allocation path honours the length), but after freeing it the next
`GetBlock(500)` returns the whole 1024-byte block, contradicting the claim
and the function's own doc comment "Returns a slice of length n". -/
theorem c1_reuse_returns_full_block :
    reuseLengthScenario = some (500, 1024) ∧ (1024 : Nat) ≠ 500 := by
  constructor
  · decide
  · decide

/-- C2: after `FreeBlock b` and any later operations, a `GetBlock` that hands
out `b`'s block again returns a view every byte of which is zero — the
initial state `m0` is arbitrary, so this holds regardless of what was written
into the block before it was freed. -/
theorem c2_zero_on_reuse {m0 : Manager} {b : ByteView} {m1 : Manager}
    (ops : List Op) {n : Nat} {v : ByteView} {m2 : Manager}
    (_hfree : m0.FreeBlock b = Except.ok m1)
    (hget : (m1.run ops).GetBlock n = Except.ok (v, m2))
    (_hsIdx : v.sIdx = b.sIdx) (_hbIdx : v.bIdx = b.bIdx) :
    allZero v.data :=
  Manager.GetBlock_allZero hget

/-- Witness for C2: a one-block manager whose block holds the bytes
`[7, 7, 7, 7]` and is checked out; freeing it and reacquiring (request size 3)
returns the reused block fully zeroed. -/
theorem c2_zero_on_reuse_witness :
    Manager.FreeBlock ⟨[[[7, 7, 7, 7]]], {(0, 0)}⟩ ⟨0, 0, [7, 7, 7, 7]⟩ =
        Except.ok (⟨[[[7, 7, 7, 7]]], ∅⟩ : Manager) ∧
      Manager.GetBlock (Manager.run ⟨[[[7, 7, 7, 7]]], ∅⟩ []) 3 =
        Except.ok (⟨0, 0, [0, 0, 0, 0]⟩, (⟨[[[0, 0, 0, 0]]], {(0, 0)}⟩ : Manager)) ∧
      allZero [0, 0, 0, 0] :=
  ⟨by decide, by decide,
    @c2_zero_on_reuse ⟨[[[7, 7, 7, 7]]], {(0, 0)}⟩ ⟨0, 0, [7, 7, 7, 7]⟩
      ⟨[[[7, 7, 7, 7]]], ∅⟩ [] 3 ⟨0, 0, [0, 0, 0, 0]⟩
      ⟨[[[0, 0, 0, 0]]], {(0, 0)}⟩ (by decide) (by decide) rfl rfl⟩

/-- C3: on a well-formed manager, every successful `GetBlock n` is backed by
a block whose physical capacity is `classSize s ≥ n` with `s` the smallest
class satisfying that bound, and the backing block stored in the class table
really has that physical length. -/
theorem c3_class_sufficiency {m : Manager} {n : Nat} {v : ByteView}
    {m' : Manager} (hw : blocksWF m) (h : m.GetBlock n = Except.ok (v, m')) :
    minimalClassFor n v.sIdx ∧
      ((m'.blocks.getD v.sIdx []).getD v.bIdx []).length = classSize v.sIdx := by
  obtain ⟨cls, hg, hs, hcase⟩ := Manager.GetBlock_ok h
  have hw' := Manager.GetBlock_blocksWF hw h
  obtain ⟨hlen', hcls'⟩ := hw'
  have hslt : (findClass n).2 < m.blocks.length := lt_length_of_get? hg
  constructor
  · rw [hs]
    exact ⟨findClass_le n, findClass_min n⟩
  · rcases hcase with ⟨i, hf, hb, -, hblocks, -⟩ | ⟨-, hb, -, hblocks, -⟩
    · apply hcls'
      · rw [hblocks, List.length_set, hs]
        exact hslt
      · rw [hblocks, hs, hb, getD_set_self hslt, List.length_set]
        exact (freeIndex_some hf).1
    · apply hcls'
      · rw [hblocks, List.length_set, hs]
        exact hslt
      · rw [hblocks, hs, hb, getD_set_self hslt]
        simp

set_option maxRecDepth 100000 in
/-- Witness for C3: `GetBlock(1000)` on a fresh manager lands in class 0
(1024 bytes), the smallest class of capacity `≥ 1000`, and the backing block
physically has 1024 bytes. -/
theorem c3_class_sufficiency_witness :
    blocksWF NewManager ∧
      NewManager.GetBlock 1000 =
        Except.ok ((getOk NewManager 1000).1, (getOk NewManager 1000).2) ∧
      minimalClassFor 1000 (getOk NewManager 1000).1.sIdx ∧
      (((getOk NewManager 1000).2.blocks.getD (getOk NewManager 1000).1.sIdx
            []).getD (getOk NewManager 1000).1.bIdx []).length =
        classSize (getOk NewManager 1000).1.sIdx :=
  ⟨by decide, by decide,
    (@c3_class_sufficiency NewManager 1000 (getOk NewManager 1000).1
      (getOk NewManager 1000).2 (by decide) (by decide)).1,
    (@c3_class_sufficiency NewManager 1000 (getOk NewManager 1000).1
      (getOk NewManager 1000).2 (by decide) (by decide)).2⟩

/-- C4: `FreeBlock` on a view whose block is not in the checked-out set
panics — for a nonempty view via `panic("Tried to free an unused block")`,
for a zero-length view already while computing `&b[0]` — and in particular
the second of two back-to-back frees of the same view panics, because the
first free removed the block from the checked-out set. -/
theorem c4_free_not_checked_out_panics :
    (∀ (m : Manager) (b : ByteView), (b.sIdx, b.bIdx) ∉ m.used →
        panics (m.FreeBlock b)) ∧
      ∀ (m : Manager) (b : ByteView) (m' : Manager),
        m.FreeBlock b = Except.ok m' →
        m'.FreeBlock b = Except.error MemErr.freeUnused := by
  constructor
  · intro m b hnot
    unfold Manager.FreeBlock panics
    by_cases hl : b.data.length = 0
    · rw [if_pos hl]
      exact ⟨_, rfl⟩
    · rw [if_neg hl, if_neg hnot]
      exact ⟨_, rfl⟩
  · intro m b m' h
    obtain ⟨hlen, -, hused, -⟩ := Manager.FreeBlock_ok h
    unfold Manager.FreeBlock
    rw [if_neg hlen,
      if_neg (by rw [hused]; exact fun hc => (Finset.mem_erase.1 hc).1 rfl)]

/-- Witness for C4: freeing a never-acquired view on a fresh manager panics,
and freeing the same checked-out view twice panics on the second call. -/
theorem c4_free_not_checked_out_panics_witness :
    (((0, 0) : Nat × Nat) ∉ NewManager.used ∧
        panics (NewManager.FreeBlock ⟨0, 0, [0]⟩)) ∧
      Manager.FreeBlock ⟨[[[5]]], {(0, 0)}⟩ ⟨0, 0, [5]⟩ =
          Except.ok (⟨[[[5]]], ∅⟩ : Manager) ∧
        Manager.FreeBlock (⟨[[[5]]], ∅⟩ : Manager) ⟨0, 0, [5]⟩ =
          Except.error MemErr.freeUnused :=
  ⟨⟨by decide,
      c4_free_not_checked_out_panics.1 NewManager ⟨0, 0, [0]⟩ (by decide)⟩,
   by decide,
   c4_free_not_checked_out_panics.2 ⟨[[[5]]], {(0, 0)}⟩ ⟨0, 0, [5]⟩
     (⟨[[[5]]], ∅⟩ : Manager) (by decide)⟩

/-- C5: with every public operation serialized by the manager's mutex
(modelled as whole-operation interleaving), no two `GetBlock` results are
backed by the same block while both are outstanding: the block `GetBlock`
marks in-use was not in the checked-out set, and two acquisitions with no
intervening free of the first view's block return distinct block
identities. -/
theorem c5_no_double_allocation {m : Manager} (hu : usedValid m) :
    (∀ (n : Nat) (v : ByteView) (m' : Manager),
        m.GetBlock n = Except.ok (v, m') →
        (v.sIdx, v.bIdx) ∉ m.used ∧ (v.sIdx, v.bIdx) ∈ m'.used) ∧
      ∀ (n1 : Nat) (v1 : ByteView) (m1 : Manager) (ops : List Op) (n2 : Nat)
        (v2 : ByteView) (m2 : Manager),
        m.GetBlock n1 = Except.ok (v1, m1) →
        (∀ b, Op.free b ∈ ops → (b.sIdx, b.bIdx) ≠ (v1.sIdx, v1.bIdx)) →
        (m1.run ops).GetBlock n2 = Except.ok (v2, m2) →
        (v1.sIdx, v1.bIdx) ≠ (v2.sIdx, v2.bIdx) := by
  constructor
  · intro n v m' h
    exact Manager.GetBlock_fresh hu h
  · intro n1 v1 m1 ops n2 v2 m2 h1 hops h2
    have hu1 : usedValid m1 := Manager.GetBlock_usedValid hu h1
    have hmem : (v1.sIdx, v1.bIdx) ∈ m1.used := (Manager.GetBlock_fresh hu h1).2
    have hmem2 : (v1.sIdx, v1.bIdx) ∈ (m1.run ops).used :=
      Manager.run_mem_used hmem hops
    have hu2 : usedValid (m1.run ops) := Manager.run_usedValid hu1
    have hfresh2 := (Manager.GetBlock_fresh hu2 h2).1
    intro heq
    rw [heq] at hmem2
    exact hfresh2 hmem2

set_option maxRecDepth 100000 in
/-- Witness for C5: two back-to-back acquisitions on a fresh manager get
blocks `(0,0)` and `(0,1)` — distinct identities. -/
theorem c5_no_double_allocation_witness :
    usedValid NewManager ∧
      NewManager.GetBlock 5 =
        Except.ok ((getOk NewManager 5).1, (getOk NewManager 5).2) ∧
      Manager.GetBlock (Manager.run (getOk NewManager 5).2 []) 7 =
        Except.ok ((getOk (Manager.run (getOk NewManager 5).2 []) 7).1,
          (getOk (Manager.run (getOk NewManager 5).2 []) 7).2) ∧
      ((getOk NewManager 5).1.sIdx, (getOk NewManager 5).1.bIdx) ≠
        ((getOk (Manager.run (getOk NewManager 5).2 []) 7).1.sIdx,
          (getOk (Manager.run (getOk NewManager 5).2 []) 7).1.bIdx) :=
  ⟨by decide, by decide, by decide,
    (@c5_no_double_allocation NewManager (by decide)).2 5
      (getOk NewManager 5).1 (getOk NewManager 5).2 [] 7
      (getOk (Manager.run (getOk NewManager 5).2 []) 7).1
      (getOk (Manager.run (getOk NewManager 5).2 []) 7).2
      (by decide) (fun b hb => absurd hb (List.not_mem_nil _)) (by decide)⟩

/-- C6 counterexample: at the concrete oversized request `n = 2^62 + 1`
(which exceeds `2^30`), the Go class-search loop's capacity variable
overflows through `-2^63` to `0` and the loop never terminates — `GetBlock`
hangs and signals nothing, refuting the claim that every request above the
largest class gets a clear, deterministic error. -/
theorem c6_counterexample_huge_request_diverges :
    2 ^ 30 < ((2 : Int) ^ 62 + 1) ∧ getBlockDiverges (2 ^ 62 + 1) :=
  ⟨by norm_num, getBlockDiverges_of_gt (by norm_num)⟩

/-- C6 amended: for oversized requests `2^30 < n ≤ 2^62`, `GetBlock` panics
deterministically — the class search stops at an index `≥ 21` and the
`m.blocks[s]` access is out of range — without growing the class table; but
for `n > 2^62` the capacity arithmetic overflows and `GetBlock` never
returns, so no error is signalled there. -/
theorem c6_oversized_request {n : Int} :
    (2 ^ 30 < n → n ≤ 2 ^ 62 →
        getBlockClassOutcome 64 n = some (Except.error MemErr.indexOutOfRange)) ∧
      (2 ^ 62 < n → getBlockDiverges n) :=
  ⟨fun h1 h2 => getBlockClassOutcome_error h1 h2,
   fun h => getBlockDiverges_of_gt h⟩

/-- Witness for C6: the request `2^30 + 1` is in the panic range and indeed
produces the out-of-range panic; the request `2^63 - 1` (the largest Go int)
is in the divergent range. -/
theorem c6_oversized_request_witness :
    (2 ^ 30 < ((2 : Int) ^ 30 + 1) ∧ ((2 : Int) ^ 30 + 1) ≤ 2 ^ 62 ∧
        getBlockClassOutcome 64 (2 ^ 30 + 1) =
          some (Except.error MemErr.indexOutOfRange)) ∧
      2 ^ 62 < ((2 : Int) ^ 63 - 1) ∧ getBlockDiverges (2 ^ 63 - 1) :=
  ⟨⟨by norm_num, by norm_num,
      (@c6_oversized_request (2 ^ 30 + 1)).1 (by norm_num) (by norm_num)⟩,
   by norm_num, (@c6_oversized_request (2 ^ 63 - 1)).2 (by norm_num)⟩

/-- C7: `TotalAllocations` performs no mutation — the manager state after the
call is exactly the state before it — but, contrary to the claim, its body
performs no mutex operation at all: unlike `GetBlock` and `FreeBlock`, which
lock on entry and unlock on exit, the source of `TotalAllocations` contains
no `Lock`/`Unlock` call, so it reads `blocks` and `used` without the lock. -/
theorem c7_totalallocations_no_mutation_no_lock :
    (∀ m : Manager, (m.TotalAllocations).2 = m) ∧
      totalAllocationsLockEvents = [] ∧
      getBlockLockEvents = [LockEvent.lock, LockEvent.unlock] ∧
      freeBlockLockEvents = [LockEvent.lock, LockEvent.unlock] ∧
      totalAllocationsLockEvents ≠ getBlockLockEvents :=
  ⟨fun _ => rfl, rfl, rfl, rfl, by decide⟩

/-- C8: the total bytes ever allocated never decrease over any sequence of
operations; a `GetBlock` leaves the total unchanged exactly when the target
class has a free block, and otherwise grows it by exactly that class's size;
`FreeBlock` and `TotalAllocations` never change it. -/
theorem c8_total_allocated_monotone :
    (∀ (m : Manager) (ops : List Op),
        totalAllocated m ≤ totalAllocated (m.run ops)) ∧
      (∀ (m : Manager) (n : Nat) (v : ByteView) (m' : Manager),
        m.GetBlock n = Except.ok (v, m') →
          (hasFree m n → totalAllocated m' = totalAllocated m) ∧
          (¬ hasFree m n →
            totalAllocated m' = totalAllocated m + classSize (findClass n).2)) ∧
      (∀ (m : Manager) (b : ByteView) (m' : Manager),
        m.FreeBlock b = Except.ok m' → totalAllocated m' = totalAllocated m) ∧
      ∀ m : Manager, totalAllocated (m.TotalAllocations).2 = totalAllocated m :=
  ⟨Manager.run_totalAllocated_mono,
   fun _ _ _ _ h => Manager.GetBlock_totalAllocated h,
   fun _ _ _ h => Manager.FreeBlock_totalAllocated h,
   fun _ => rfl⟩

set_option maxRecDepth 100000 in
/-- Witness for C8: on a fresh manager `GetBlock(5)` finds no free block and
grows the total by exactly `classSize 0 = 1024`; freeing the result leaves
the total unchanged. -/
theorem c8_total_allocated_monotone_witness :
    NewManager.GetBlock 5 =
        Except.ok ((getOk NewManager 5).1, (getOk NewManager 5).2) ∧
      ¬ hasFree NewManager 5 ∧
      totalAllocated (getOk NewManager 5).2 =
        totalAllocated NewManager + classSize (findClass 5).2 ∧
      Manager.FreeBlock (getOk NewManager 5).2 (getOk NewManager 5).1 =
        Except.ok (freeOk (getOk NewManager 5).2 (getOk NewManager 5).1) ∧
      totalAllocated (freeOk (getOk NewManager 5).2 (getOk NewManager 5).1) =
        totalAllocated (getOk NewManager 5).2 :=
  ⟨by decide, by decide,
   (c8_total_allocated_monotone.2.1 NewManager 5 (getOk NewManager 5).1
       (getOk NewManager 5).2 (by decide)).2 (by decide),
   by decide,
   c8_total_allocated_monotone.2.2.1 (getOk NewManager 5).2
     (getOk NewManager 5).1 (freeOk (getOk NewManager 5).2 (getOk NewManager 5).1)
     (by decide)⟩

/-- C9: a successful `FreeBlock` removes exactly the freed block's identity
from the checked-out set (the block had to be checked out) and changes
nothing else: the class table — including every block's bytes — is untouched. -/
theorem c9_freeblock_frame {m : Manager} {b : ByteView} {m' : Manager}
    (h : m.FreeBlock b = Except.ok m') :
    (b.sIdx, b.bIdx) ∈ m.used ∧
      m'.used = m.used.erase (b.sIdx, b.bIdx) ∧ m'.blocks = m.blocks := by
  obtain ⟨-, hmem, hused, hblocks⟩ := Manager.FreeBlock_ok h
  exact ⟨hmem, hused, hblocks⟩

/-- Witness for C9: freeing the single checked-out block of a one-block
manager erases exactly its identity and leaves the class table untouched. -/
theorem c9_freeblock_frame_witness :
    Manager.FreeBlock ⟨[[[9]]], {(0, 0)}⟩ ⟨0, 0, [9]⟩ =
        Except.ok (⟨[[[9]]], ∅⟩ : Manager) ∧
      ((0, 0) : Nat × Nat) ∈ (⟨[[[9]]], {(0, 0)}⟩ : Manager).used ∧
      (⟨[[[9]]], ∅⟩ : Manager).used =
        (⟨[[[9]]], {(0, 0)}⟩ : Manager).used.erase (0, 0) ∧
      (⟨[[[9]]], ∅⟩ : Manager).blocks = (⟨[[[9]]], {(0, 0)}⟩ : Manager).blocks :=
  ⟨by decide,
   @c9_freeblock_frame ⟨[[[9]]], {(0, 0)}⟩ ⟨0, 0, [9]⟩ ⟨[[[9]]], ∅⟩
     (by decide)⟩

set_option maxRecDepth 100000 in
/-- C10 counterexample: the claim says a size-0 acquire returns a zero-length
view that always trips the fatal path on release.  Evaluating the program:
`GetBlock(1000)`; `FreeBlock`; then `GetBlock(0)` takes the reuse path and
returns the full 1024-byte block — not a zero-length view — and releasing
that view succeeds. -/
theorem c10_counterexample_zero_acquire_reuse :
    zeroAcquireScenario = some (1024, true) ∧ (1024 : Nat) ≠ 0 := by
  constructor
  · decide
  · decide

/-- C10 amended: a `GetBlock(0)` that allocates a new block (no free block in
class 0) returns a zero-length view, and `FreeBlock` on any zero-length view
panics with the index-out-of-range from `&b[0]`, so such a view can never be
released; a `GetBlock(0)` that reuses a freed block instead returns the full
1024-byte block, which releases normally (see the counterexample). -/
theorem c10_zero_size_acquire :
    (∀ (m : Manager) (v : ByteView) (m' : Manager),
        m.GetBlock 0 = Except.ok (v, m') → ¬ hasFree m 0 → v.data = []) ∧
      ∀ (m : Manager) (b : ByteView), b.data = [] →
        m.FreeBlock b = Except.error MemErr.indexOutOfRange := by
  constructor
  · intro m v m' h hnf
    obtain ⟨cls, hg, -, hcase⟩ := Manager.GetBlock_ok h
    rcases hcase with ⟨i, hf, -, -, -, -⟩ | ⟨-, -, hdata, -, -⟩
    · refine absurd ?_ hnf
      unfold hasFree
      rw [getD_eq_of_get? hg, hf]
      rfl
    · rw [hdata]
      simp
  · intro m b hb
    unfold Manager.FreeBlock
    rw [if_pos (by rw [hb]; rfl)]

set_option maxRecDepth 100000 in
/-- Witness for C10 amended: on a fresh manager `GetBlock(0)` allocates and
returns the empty view, and `FreeBlock` of an arbitrary empty view panics
with the index-out-of-range error. -/
theorem c10_zero_size_acquire_witness :
    NewManager.GetBlock 0 =
        Except.ok ((getOk NewManager 0).1, (getOk NewManager 0).2) ∧
      ¬ hasFree NewManager 0 ∧ (getOk NewManager 0).1.data = [] ∧
      Manager.FreeBlock NewManager ⟨3, 3, []⟩ =
        Except.error MemErr.indexOutOfRange :=
  ⟨by decide, by decide,
   c10_zero_size_acquire.1 NewManager (getOk NewManager 0).1
     (getOk NewManager 0).2 (by decide) (by decide),
   c10_zero_size_acquire.2 NewManager ⟨3, 3, []⟩ rfl⟩
